import Mathlib

/-!
Shallow embedding of `src/pettingzoo/magent/magent_env.py`
(class `magent_parallel_env`), together with proofs of the
specification's claims about it.

Modelling conventions:
* The external simulation engine is opaque; the wrapper only reads from it.
  We model the engine by a snapshot of the answers its per-handle queries
  return during one wrapper call (`get_agent_id`, `get_reward`, `get_alive`,
  `get_observation`, and the boolean returned by `env.step()`).  A handle is
  identified with its position in `self.handles`, so every per-handle list is
  indexed by that position.
* numpy float arrays are modelled over `ℚ` (the wrapper performs no
  arithmetic on observation or reward values, it only copies them).
* A 3-d observation tensor of shape (H, W, C) is a nested list
  (rows, then columns, then channels).
* Python dicts keyed by agent-id strings are association lists built in the
  same order as the source's dict comprehensions; `dget` is `d[k]`
  (first-match lookup; the source's dicts have unique keys).
* numpy in-place index assignment `arr[ids] = vals` is a left fold of
  `List.set` over `ids.zip vals` (`writeAll`); `List.set` out of range is the
  identity, which is only reachable where numpy would raise, and every claim
  is settled under the bounds that hold in the source.
-/

set_option autoImplicit false

namespace Magent

/-- An observation tensor of shape (H, W, C): rows of columns of channel
vectors. -/
abbrev Obs3 := List (List (List ℚ))

/-- A tensor shape (H, W, C). -/
abbrev Shape3 := Nat × Nat × Nat

/-- `np.zeros(shape)` for a 3-d shape, as used by
`np.zeros_like(space.low)` in `_zero_obs`. -/
def zerosObs : Shape3 → Obs3
  | (h, w, c) => List.replicate h (List.replicate w (List.replicate c (0 : ℚ)))

/-- `t` is a rectangular tensor of shape `s`. -/
def WellShaped (t : Obs3) (s : Shape3) : Prop :=
  t.length = s.1 ∧
  (∀ row ∈ t, row.length = s.2.1 ∧ ∀ cell ∈ row, cell.length = s.2.2)

instance (t : Obs3) (s : Shape3) : Decidable (WellShaped t s) := by
  unfold WellShaped; infer_instance

/-- Static per-handle metadata queried in `__init__`:
`get_num`, `get_action_space`, `get_view_space`, `get_feature_space`
(the latter two as the 3-tuple / 1-tuple the asserts in
`_calc_obs_shapes` require). -/
structure EngineMeta where
  num : List Nat
  action_space : List Nat
  view_space : List Shape3
  feature_space : List Nat

/-- Snapshot of the per-tick engine query answers used by one wrapper call,
indexed by handle position: `get_agent_id`, `get_reward`, `get_alive`, and
`get_observation` (split into its `view` and `features` arrays, each a list
over the reported agents), plus the boolean `env.step()` returns. -/
structure Engine where
  agent_id : List (List Nat)
  reward : List (List ℚ)
  alive : List (List Bool)
  view : List (List Obs3)
  feature : List (List (List ℚ))
  step_signal : Bool

/-- The wrapper's own bookkeeping state (`self.…` attributes that the
modelled methods read or write).  `all_dones` is unset by `__init__` in the
source and first assigned by `reset`; we give it the empty dict there. -/
structure MEnv where
  possible_agents : List String
  team_sizes : List Nat
  max_num_agents : Nat
  max_frames : Nat
  observation_shapes : List (String × Shape3)
  agents : List String
  all_dones : List (String × Bool)
  frames : Nat

/-- `d[k]` on a Python dict modelled as an association list: the value of
the first entry with key `k`. -/
def dget {β : Type} : List (String × β) → String → Option β
  | [], _ => none
  | p :: rest, k => if p.1 = k then some p.2 else dget rest k

/-- numpy fancy index assignment: `arr[i] = v` for each pair `(i, v)` in
order (`List.set` ignores out-of-range writes, where numpy would raise). -/
def writeAll {α : Type} (ps : List (Nat × α)) (arr : List α) : List α :=
  ps.foldl (fun a p => a.set p.1 p.2) arr

/-- The agent-id list built in `__init__`:
`[f"{names[j]}_{i}" for j in range(len(team_sizes)) for i in range(team_sizes[j])]`. -/
def makeAgentNames (names : List String) (team_sizes : List Nat) : List String :=
  (List.range team_sizes.length).flatMap
    (fun j => (List.range (team_sizes.getD j 0)).map
      (fun i => names.getD j "" ++ "_" ++ toString i))

/-- `_calc_obs_shapes`: per team,
`view_space[:2] + (view_space[2] + feature_space[0],)`. -/
def calc_obs_shapes (view_spaces : List Shape3) (feature_spaces : List Nat) :
    List Shape3 :=
  (view_spaces.zip feature_spaces).map
    (fun p => (p.1.1, p.1.2.1, p.1.2.2 + p.2))

/-- The per-agent repetition of the per-team observation shapes, matching
`[... team_obs_shapes[j] ... for j in range(len(team_sizes)) for i in range(team_sizes[j])]`. -/
def perAgentShapes (team_sizes : List Nat) (team_obs_shapes : List Shape3) :
    List Shape3 :=
  (List.range team_sizes.length).flatMap
    (fun j => (List.range (team_sizes.getD j 0)).map
      (fun _ => team_obs_shapes.getD j (0, 0, 0)))

/-- `__init__` (the bookkeeping part: team sizes, agent names, observation
shapes, frame counter).  `self.observation_spaces` is kept as the shape of
each agent's Box space, which is all the wrapper reads from it. -/
def initEnv (meta : EngineMeta) (names : List String) (max_frames : Nat) : MEnv :=
  let team_sizes := meta.num
  let agents := makeAgentNames names team_sizes
  let team_obs_shapes := calc_obs_shapes meta.view_space meta.feature_space
  { possible_agents := agents
    team_sizes := team_sizes
    max_num_agents := team_sizes.sum
    max_frames := max_frames
    observation_shapes := agents.zip (perAgentShapes team_sizes team_obs_shapes)
    agents := agents
    all_dones := []
    frames := 0 }

/-- `self._zero_obs = {agent: np.zeros_like(space.low) for agent, space in
self.observation_spaces.items()}` (`Box(low=0., …)` has `low = np.zeros(shape)`). -/
def MEnv.zero_obs (st : MEnv) : List (String × Obs3) :=
  st.observation_shapes.map (fun p => (p.1, zerosObs p.2))

/-- The engine calls a wrapper method issues, in order. -/
inductive EngineCall where
  | resetCall : EngineCall
  | generateMap : EngineCall
  | clearDead : EngineCall
  | setAction : Nat → List Int → EngineCall
  | stepCall : EngineCall
deriving DecidableEq, Repr

/-- `np.tile(np.expand_dims(np.expand_dims(features, 1), 1), (1, H, W, 1))`
for one agent's feature vector: an H × W grid whose every cell is the
feature vector. -/
def tileFeat (h w : Nat) (f : List ℚ) : Obs3 :=
  List.replicate h (List.replicate w f)

/-- `np.concatenate([a, b], axis=-1)` for two (H, W, ·) tensors of equal
spatial size: cell-wise append along the channel axis. -/
def concatLast (a b : Obs3) : Obs3 :=
  (a.zip b).map (fun rw => (rw.1.zip rw.2).map (fun cl => cl.1 ++ cl.2))

/-- The `fin_obs` array of `_observe_all` for one handle: the view tensor of
each reported agent concatenated with its feature vector tiled over the
view's two spatial dimensions (`view.shape[1]`, `view.shape[2]` of the
stacked (n, H, W, C) array, i.e. the spatial size of the first tensor). -/
def finObsHandle (view : List Obs3) (feature : List (List ℚ)) : List Obs3 :=
  let h := (view.getD 0 []).length
  let w := ((view.getD 0 []).getD 0 []).length
  (view.zip feature).map (fun p => concatLast p.1 (tileFeat h w p.2))

/-- The `(id, obs)` write pairs `_observe_all` produces for one handle:
`zip(ids, fin_obs)`. -/
def handlePairs (e : Engine) (h : Nat) : List (Nat × Obs3) :=
  (e.agent_id.getD h []).zip (finObsHandle (e.view.getD h []) (e.feature.getD h []))

/-- `_observe_all`: fill an `Option`-array of length `max_num_agents`
(initially all `None`) with each handle's observations at the engine agent
ids, then return the dict over `possible_agents`, restricted to
`ret_agents = set(self.agents)`, with `None` replaced by the agent's
`_zero_obs` entry. -/
def MEnv._observe_all (st : MEnv) (e : Engine) : List (String × Obs3) :=
  ((st.possible_agents.zip
      ((List.range st.team_sizes.length).foldl
        (fun arr h => writeAll ((handlePairs e h).map (fun p => (p.1, some p.2))) arr)
        (List.replicate st.max_num_agents none))).filter
    (fun p => decide (p.1 ∈ st.agents))).map
    (fun p => (p.1, p.2.getD ((dget st.zero_obs p.1).getD [])))

/-- `_all_rewards`: `rewards = np.zeros(max_num_agents)`, then
`rewards[ids] = get_reward(handle)` per handle, then the dict over
`possible_agents` restricted to `set(self.agents)`. -/
def MEnv._all_rewards (st : MEnv) (e : Engine) : List (String × ℚ) :=
  (st.possible_agents.zip
    ((List.range st.team_sizes.length).foldl
      (fun arr h => writeAll ((e.agent_id.getD h []).zip (e.reward.getD h [])) arr)
      (List.replicate st.max_num_agents 0))).filter
    (fun p => decide (p.1 ∈ st.agents))

/-- `_all_dones(step_done)`: `dones = np.ones(max_num_agents, dtype=bool)`;
unless `step_done`, overwrite `dones[ids] = ~get_alive(handle)` per handle;
then the dict over `possible_agents` restricted to `set(self.agents)`. -/
def MEnv._all_dones (st : MEnv) (e : Engine) (step_done : Bool) :
    List (String × Bool) :=
  (st.possible_agents.zip
    (if step_done then List.replicate st.max_num_agents true
     else
      (List.range st.team_sizes.length).foldl
        (fun arr h =>
          writeAll ((e.agent_id.getD h []).zip ((e.alive.getD h []).map (fun b => !b))) arr)
        (List.replicate st.max_num_agents true))).filter
    (fun p => decide (p.1 ∈ st.agents))

/-- `reset()`: restore `agents` to `possible_agents`, reset the engine
(`env.reset()` then `generate_map()`), zero the frame counter, clear every
done flag, and return the initial observations.  `e` is the engine snapshot
after its reset. -/
def MEnv.resetEnv (st : MEnv) (e : Engine) :
    MEnv × List (String × Obs3) × List EngineCall :=
  let st' := { st with
    agents := st.possible_agents
    frames := 0
    all_dones := st.possible_agents.map (fun a => (a, false)) }
  (st', st'._observe_all e, [EngineCall.resetCall, EngineCall.generateMap])

/-- `np.asarray(·, dtype=np.int32)` on one Python int: wrap into
[-2^31, 2^31). -/
def toInt32 (x : Int) : Int := (x + 2 ^ 31) % 2 ^ 32 - 2 ^ 31

/-- The `action_list` loop of `step`: start from `[0] * max_num_agents` and,
for each `i, agent in enumerate(possible_agents)` with `agent in all_actions`,
set slot `i` to the supplied action. -/
def buildActionList (max_num_agents : Nat) (possible_agents : List String)
    (all_actions : String → Option Int) : List Int :=
  possible_agents.enum.foldl
    (fun arr p =>
      match all_actions p.2 with
      | some a => arr.set p.1 a
      | none => arr)
    (List.replicate max_num_agents 0)

/-- The index/value writes the `action_list` loop performs: one pair per
agent whose id is a key of the action dict. -/
def actionWrites (pa : List String) (acts : String → Option Int) :
    List (Nat × Int) :=
  pa.enum.filterMap (fun p => (acts p.2).map (fun a => (p.1, a)))

/-- The `set_action` loop of `step`: hand each handle the slice
`all_actions[start_point : start_point + size]` of the flat action array,
advancing `start_point` by each team's size. -/
def slicesFrom : List Nat → Nat → List Int → List (List Int)
  | [], _, _ => []
  | s :: rest, start, flat => ((flat.drop start).take s) :: slicesFrom rest (start + s) flat

/-- Everything one `step(all_actions)` call produces: the new wrapper state,
the four returned dicts (infos carries only its key list, the values are all
`{}`), the engine calls in order, plus the flat int32 action array and the
`done` flag the body computes. -/
structure StepResult where
  st : MEnv
  observations : List (String × Obs3)
  rewards : List (String × ℚ)
  dones : List (String × Bool)
  infos : List String
  trace : List EngineCall
  flat_actions : List Int
  done_flag : Bool

/-- `self.agents = [agent for agent in self.agents if not self.all_dones[agent]]`:
keep an agent exactly when its recorded done flag is `False` (a missing key,
a `KeyError` in Python and unreachable after `reset`, is treated as done). -/
def MEnv.filteredAgents (st : MEnv) : List String :=
  st.agents.filter (fun a => !((dget st.all_dones a).getD true))

/-- `done = self.env.step() or self.frames >= self.max_frames`, evaluated
after `self.frames += 1`. -/
def MEnv.doneFlag (st : MEnv) (e : Engine) : Bool :=
  e.step_signal || decide (st.frames + 1 ≥ st.max_frames)

/-- The wrapper state as the dict-building helpers of `step` see it: agents
filtered, frame counter incremented. -/
def MEnv.stepMid (st : MEnv) : MEnv :=
  { st with agents := st.filteredAgents, frames := st.frames + 1 }

/-- `step(all_actions)`.  `e` is the snapshot of the engine's answers during
this call (its queries are read after `env.step()`). -/
def MEnv.step (st : MEnv) (e : Engine) (all_actions : String → Option Int) :
    StepResult :=
  let action_list := buildActionList st.max_num_agents st.possible_agents all_actions
  let flat := action_list.map toInt32
  let slices := slicesFrom st.team_sizes 0 flat
  let dns := st.stepMid._all_dones e (st.doneFlag e)
  { st := { st.stepMid with all_dones := dns }
    observations := st.stepMid._observe_all e
    rewards := st.stepMid._all_rewards e
    dones := dns
    infos := st.filteredAgents
    trace := [EngineCall.clearDead]
      ++ ((List.range st.team_sizes.length).map
            (fun i => EngineCall.setAction i (slices.getD i [])))
      ++ [EngineCall.stepCall]
    flat_actions := flat
    done_flag := st.doneFlag e }

/-- The invariants `__init__`/`reset` establish and `step` preserves, under
which the claims are stated: the flat arrays have one slot per possible
agent, and the live list is a subset of `possible_agents`. -/
def WF (st : MEnv) : Prop :=
  st.max_num_agents = st.possible_agents.length ∧
  (∀ a ∈ st.agents, a ∈ st.possible_agents) ∧
  st.team_sizes.sum = st.max_num_agents

instance (st : MEnv) : Decidable (WF st) := by
  unfold WF; infer_instance

/-! ### A concrete instantiation

A small two-team environment (teams `red` of size 2 and `blue` of size 1,
1 × 1 views with 1 channel, 1 feature) and a few engine snapshots, used to
evaluate the theorems on closed inputs. -/

def exMeta : EngineMeta :=
  { num := [2, 1]
    action_space := [5, 3]
    view_space := [(1, 1, 1), (1, 1, 1)]
    feature_space := [1, 1] }

def exNames : List String := ["red", "blue"]

def exInit : MEnv := initEnv exMeta exNames 10

/-- Engine snapshot right after a reset: all three agents reported. -/
def exEngine : Engine :=
  { agent_id := [[0, 1], [2]]
    reward := [[1, 2], [3]]
    alive := [[true, true], [true]]
    view := [[[[[5]]], [[[6]]]], [[[[7]]]]]
    feature := [[[9], [10]], [[11]]]
    step_signal := false }

/-- Snapshot in which the engine no longer reports agent 1 (`red_1`). -/
def exEngineDead : Engine :=
  { agent_id := [[0], [2]]
    reward := [[1], [3]]
    alive := [[true], [true]]
    view := [[[[[5]]]], [[[[7]]]]]
    feature := [[[9]], [[11]]]
    step_signal := false }

/-- Snapshot whose `env.step()` returned `True` (global episode end). -/
def exEngineEnd : Engine :=
  { exEngine with step_signal := true }

/-- Like `exEngineEnd` but with every per-agent alive flag flipped. -/
def exEngineEndAliveFlip : Engine :=
  { exEngineEnd with alive := [[false, false], [false]] }

/-- The wrapper state right after `reset()`. -/
def exSt : MEnv := (exInit.resetEnv exEngine).1

/-- A state in which `red_1` was recorded done by the previous step. -/
def exStDone : MEnv :=
  { exSt with
    all_dones := [("red_0", false), ("red_1", true), ("blue_0", false)] }

/-- An action dict supplying actions for `red_1` and `blue_0` only. -/
def exActs : String → Option Int :=
  fun a => if a = "red_1" then some 3 else if a = "blue_0" then some 2 else none

/-- The empty action dict. -/
def exActsNone : String → Option Int := fun _ => none

/-! ### Basic lemmas about the dict and array models -/

theorem writeAll_length {α : Type} (ps : List (Nat × α)) (arr : List α) :
    (writeAll ps arr).length = arr.length := by
  induction ps generalizing arr with
  | nil => rfl
  | cons p ps ih =>
    show (writeAll ps (arr.set p.1 p.2)).length = arr.length
    rw [ih, List.length_set]

theorem writeAll_append {α : Type} (ps qs : List (Nat × α)) (arr : List α) :
    writeAll (ps ++ qs) arr = writeAll qs (writeAll ps arr) := by
  simp [writeAll, List.foldl_append]

theorem writeAll_getElem?_of_not_mem {α : Type} (ps : List (Nat × α)) (arr : List α)
    (i : Nat) (h : i ∉ ps.map Prod.fst) :
    (writeAll ps arr)[i]? = arr[i]? := by
  induction ps generalizing arr with
  | nil => rfl
  | cons p ps ih =>
    simp only [List.map_cons, List.mem_cons, not_or] at h
    show (writeAll ps (arr.set p.1 p.2))[i]? = arr[i]?
    rw [ih _ h.2, List.getElem?_set_ne (fun hq => h.1 hq.symm)]

theorem writeAll_getElem?_last {α : Type} (ps qs : List (Nat × α)) (arr : List α)
    (i : Nat) (v : α) (hi : i < arr.length) (h : i ∉ qs.map Prod.fst) :
    (writeAll (ps ++ (i, v) :: qs) arr)[i]? = some v := by
  rw [show ps ++ (i, v) :: qs = (ps ++ [(i, v)]) ++ qs by simp, writeAll_append,
    writeAll_getElem?_of_not_mem _ _ _ h, writeAll_append]
  show ((writeAll ps arr).set i v)[i]? = some v
  rw [List.getElem?_set_self]
  rwa [writeAll_length]

theorem writeAll_getElem?_of_mem_nodup {α : Type} (ps : List (Nat × α)) (arr : List α)
    (i : Nat) (v : α) (hi : i < arr.length) (hmem : (i, v) ∈ ps)
    (hnd : (ps.map Prod.fst).Nodup) :
    (writeAll ps arr)[i]? = some v := by
  obtain ⟨s, t, rfl⟩ := List.append_of_mem hmem
  refine writeAll_getElem?_last s t arr i v hi ?_
  have h1 : ((s.map Prod.fst) ++ i :: t.map Prod.fst).Nodup := by simpa using hnd
  exact (List.nodup_cons.mp h1.of_append_right).1

/-- A left fold of per-handle `writeAll`s is the `writeAll` of the
concatenated write lists. -/
theorem foldl_writeAll_eq_flatten {α : Type} (f : Nat → List (Nat × α)) (n : Nat)
    (init : List α) :
    (List.range n).foldl (fun arr h => writeAll (f h) arr) init
      = writeAll (((List.range n).map f).flatten) init := by
  induction n with
  | zero => rfl
  | succ n ih =>
    rw [List.range_succ, List.foldl_append, List.map_append, List.flatten_append, ih,
      writeAll_append]
    simp [writeAll]

theorem dget_mem {β : Type} {l : List (String × β)} {k : String} {v : β}
    (h : dget l k = some v) : (k, v) ∈ l := by
  induction l with
  | nil => simp [dget] at h
  | cons p l ih =>
    by_cases hk : p.1 = k
    · simp only [dget, if_pos hk] at h
      have hp : p = (k, v) := by
        cases p
        simp only [Option.some.injEq] at h
        simp_all
      rw [← hp]
      exact List.mem_cons_self _ _
    · simp only [dget, if_neg hk] at h
      exact List.mem_cons_of_mem _ (ih h)

theorem dget_eq_none_of_not_mem {β : Type} {l : List (String × β)} {k : String}
    (h : ∀ v, (k, v) ∉ l) : dget l k = none := by
  cases hd : dget l k with
  | none => rfl
  | some v => exact absurd (dget_mem hd) (h v)

theorem dget_filter_zip_of_not_mem {β : Type} (pa : List String) (vals : List β)
    (q : String × β → Bool) (k : String) (hk : k ∉ pa) :
    dget ((pa.zip vals).filter q) k = none := by
  refine dget_eq_none_of_not_mem (fun v hv => ?_)
  exact hk ((List.of_mem_zip (List.mem_of_mem_filter hv)).1)

theorem dget_map_const {β : Type} (pa : List String) (c : β) (k : String)
    (hk : k ∈ pa) :
    dget (pa.map (fun a => (a, c))) k = some c := by
  induction pa with
  | nil => cases hk
  | cons a pa ih =>
    by_cases h : a = k
    · simp [dget, h]
    · have hk' : k ∈ pa := by
        rcases List.mem_cons.mp hk with h1 | h1
        · exact absurd h1.symm h
        · exact h1
      simp [dget, h, ih hk']

theorem dget_map_pair {β γ : Type} (l : List (String × β)) (g : String × β → γ)
    (k : String) :
    dget (l.map (fun p => (p.1, g p))) k = (dget l k).map (fun v => g (k, v)) := by
  induction l with
  | nil => rfl
  | cons p l ih =>
    by_cases h : p.1 = k
    · cases p
      subst h
      simp [dget]
    · simp [dget, h, ih]

theorem foldl_writeAll_getElem?_of_not_mem {α : Type} (g : Nat → List (Nat × α))
    (n : Nat) (init : List α) (i : Nat) (h : ∀ j < n, i ∉ (g j).map Prod.fst) :
    ((List.range n).foldl (fun arr j => writeAll (g j) arr) init)[i]? = init[i]? := by
  rw [foldl_writeAll_eq_flatten]
  apply writeAll_getElem?_of_not_mem
  intro hmem
  obtain ⟨p, hp, hpi⟩ := List.mem_map.mp hmem
  obtain ⟨l, hl, hpl⟩ := List.mem_flatten.mp hp
  obtain ⟨j, hj, rfl⟩ := List.mem_map.mp hl
  exact h j (List.mem_range.mp hj) (List.mem_map.mpr ⟨p, hpl, hpi⟩)

/-- The key list of a dict comprehension
`{agent: val for agent, val in zip(pa, vals) if agent in A}`:
the agents of `pa` that lie in `A`. -/
theorem map_fst_filter_zip {β : Type} (pa : List String) (vals : List β)
    (A : List String) (hlen : vals.length = pa.length) :
    (((pa.zip vals).filter (fun p => decide (p.1 ∈ A))).map Prod.fst)
      = pa.filter (fun a => decide (a ∈ A)) := by
  induction pa generalizing vals with
  | nil => simp
  | cons a pa ih =>
    cases vals with
    | nil => simp at hlen
    | cons v vals =>
      have hlen' : vals.length = pa.length := by simpa using hlen
      by_cases h : a ∈ A
      · simp [List.filter_cons, h, ih vals hlen']
      · simp [List.filter_cons, h, ih vals hlen']

/-- Looking up agent `pa[i]` in the dict comprehension built from
`zip(pa, vals)` filtered by membership in `A`: its value slot `vals[i]`,
present exactly when the agent is in `A` (keys of `pa` distinct). -/
theorem dget_filter_zip {β : Type} (pa : List String) (vals : List β)
    (A : List String) (hnd : pa.Nodup) (i : Nat) (hi : i < pa.length)
    (hlen : vals.length = pa.length) :
    dget ((pa.zip vals).filter (fun p => decide (p.1 ∈ A))) (pa.get ⟨i, hi⟩)
      = if pa.get ⟨i, hi⟩ ∈ A then vals[i]? else none := by
  induction pa generalizing vals i with
  | nil => simp at hi
  | cons a pa ih =>
    cases vals with
    | nil => simp at hlen
    | cons v vals =>
      have hlen' : vals.length = pa.length := by simpa using hlen
      have hand : a ∉ pa ∧ pa.Nodup := by simpa using hnd
      cases i with
      | zero =>
        show dget (((a :: pa).zip (v :: vals)).filter (fun p => decide (p.1 ∈ A))) a
          = if a ∈ A then (v :: vals)[0]? else none
        by_cases h : a ∈ A
        · simp [List.filter_cons, h, dget]
        · have hb : (decide ((a, v).1 ∈ A)) = false := by simp [h]
          rw [List.zip_cons_cons, List.filter_cons, hb, if_neg (by simp),
            dget_filter_zip_of_not_mem _ _ _ _ hand.1]
          simp [h]
      | succ j =>
        have hj : j < pa.length := by simpa using hi
        have hne : a ≠ pa.get ⟨j, hj⟩ := by
          intro hq
          exact hand.1 (hq ▸ pa.get_mem j hj)
        have hkey : (a :: pa).get ⟨j + 1, hi⟩ = pa.get ⟨j, hj⟩ := rfl
        rw [hkey]
        by_cases h : a ∈ A
        · have hb : (decide ((a, v).1 ∈ A)) = true := by simp [h]
          rw [List.zip_cons_cons, List.filter_cons, hb, if_pos rfl,
            show dget ((a, v) :: (pa.zip vals).filter (fun p => decide (p.1 ∈ A)))
                (pa.get ⟨j, hj⟩)
              = dget ((pa.zip vals).filter (fun p => decide (p.1 ∈ A)))
                (pa.get ⟨j, hj⟩) by simp only [dget, if_neg hne]]
          simpa using ih vals hand.2 j hj hlen'
        · have hb : (decide ((a, v).1 ∈ A)) = false := by simp [h]
          rw [List.zip_cons_cons, List.filter_cons, hb, if_neg (by simp)]
          simpa using ih vals hand.2 j hj hlen'

/-! ### Constructor facts and well-formedness -/

theorem map_getD_range {α : Type} (d : α) (l : List α) :
    (List.range l.length).map (fun j => l.getD j d) = l := by
  refine List.ext_getElem (by simp) (fun i h1 h2 => ?_)
  simp only [List.getElem_map, List.getElem_range]
  rw [List.getD_eq_getElem?_getD, List.getElem?_eq_getElem h2]
  rfl

/-- Length of a per-team block list
`[g j i for j in range(len(sizes)) for i in range(sizes[j])]`. -/
theorem length_blocks {α : Type} (sizes : List Nat) (g : Nat → Nat → α) :
    ((List.range sizes.length).flatMap
      (fun j => (List.range (sizes.getD j 0)).map (g j))).length = sizes.sum := by
  rw [List.length_flatMap]
  show ((List.range sizes.length).map
    (fun j => ((List.range (sizes.getD j 0)).map (g j)).length)).sum = sizes.sum
  simp only [List.length_map, List.length_range]
  rw [map_getD_range]

theorem length_makeAgentNames (names : List String) (sizes : List Nat) :
    (makeAgentNames names sizes).length = sizes.sum :=
  length_blocks sizes _

theorem length_perAgentShapes (sizes : List Nat) (shapes : List Shape3) :
    (perAgentShapes sizes shapes).length = sizes.sum :=
  length_blocks sizes _

theorem WF_initEnv (meta : EngineMeta) (names : List String) (mf : Nat) :
    WF (initEnv meta names mf) := by
  exact ⟨(length_makeAgentNames names meta.num).symm, fun _ ha => ha, rfl⟩

theorem WF_resetEnv (st : MEnv) (e : Engine) (hwf : WF st) :
    WF (st.resetEnv e).1 :=
  ⟨hwf.1, fun _ ha => ha, hwf.2.2⟩

theorem filteredAgents_subset (st : MEnv) : ∀ a ∈ st.filteredAgents, a ∈ st.agents :=
  fun _ ha => List.mem_of_mem_filter ha

theorem WF_step (st : MEnv) (e : Engine) (acts : String → Option Int) (hwf : WF st) :
    WF (st.step e acts).st := by
  refine ⟨hwf.1, fun a ha => ?_, hwf.2.2⟩
  exact hwf.2.1 a (filteredAgents_subset st a ha)

/-! ### The filled arrays: lengths and key sets -/

theorem foldl_writeAll_length {α : Type} (f : Nat → List (Nat × α)) (n : Nat)
    (init : List α) :
    ((List.range n).foldl (fun arr h => writeAll (f h) arr) init).length
      = init.length := by
  rw [foldl_writeAll_eq_flatten, writeAll_length]

theorem map_fst_map_pair {β γ : Type} (l : List (String × β)) (g : String × β → γ) :
    ((l.map (fun p => (p.1, g p))).map Prod.fst) = l.map Prod.fst := by
  rw [List.map_map]
  rfl

theorem observe_all_map_fst (st : MEnv) (e : Engine)
    (hlen : st.max_num_agents = st.possible_agents.length) :
    (st._observe_all e).map Prod.fst
      = st.possible_agents.filter (fun a => decide (a ∈ st.agents)) := by
  unfold MEnv._observe_all
  rw [map_fst_map_pair]
  exact map_fst_filter_zip _ _ _
    (by rw [foldl_writeAll_length, List.length_replicate, hlen])

theorem all_rewards_map_fst (st : MEnv) (e : Engine)
    (hlen : st.max_num_agents = st.possible_agents.length) :
    (st._all_rewards e).map Prod.fst
      = st.possible_agents.filter (fun a => decide (a ∈ st.agents)) := by
  unfold MEnv._all_rewards
  exact map_fst_filter_zip _ _ _
    (by rw [foldl_writeAll_length, List.length_replicate, hlen])

theorem all_dones_map_fst (st : MEnv) (e : Engine) (sd : Bool)
    (hlen : st.max_num_agents = st.possible_agents.length) :
    (st._all_dones e sd).map Prod.fst
      = st.possible_agents.filter (fun a => decide (a ∈ st.agents)) := by
  unfold MEnv._all_dones
  refine map_fst_filter_zip _ _ _ ?_
  cases sd
  · rw [if_neg (by simp), foldl_writeAll_length, List.length_replicate, hlen]
  · rw [if_pos rfl, List.length_replicate, hlen]

/-! ### The flat action array -/

theorem buildActionList_eq_writeAll (m : Nat) (pa : List String)
    (acts : String → Option Int) :
    buildActionList m pa acts = writeAll (actionWrites pa acts) (List.replicate m 0) := by
  unfold buildActionList actionWrites
  generalize List.replicate m (0 : Int) = init
  generalize pa.enum = l
  induction l generalizing init with
  | nil => rfl
  | cons p l ih =>
    rw [List.foldl_cons, List.filterMap_cons]
    cases h : acts p.2 with
    | none => exact ih init
    | some a => exact ih (init.set p.1 a)

theorem buildActionList_length (m : Nat) (pa : List String)
    (acts : String → Option Int) : (buildActionList m pa acts).length = m := by
  rw [buildActionList_eq_writeAll, writeAll_length, List.length_replicate]

theorem actionWrites_map_fst_sublist (pa : List String) (acts : String → Option Int) :
    ((actionWrites pa acts).map Prod.fst).Sublist (List.range pa.length) := by
  rw [← List.enum_map_fst pa]
  unfold actionWrites
  generalize pa.enum = l
  induction l with
  | nil => simp
  | cons p l ih =>
    rw [List.filterMap_cons, List.map_cons]
    cases h : acts p.2 with
    | none => exact ih.cons p.1
    | some a => exact ih.cons₂ p.1

theorem mem_actionWrites (pa : List String) (acts : String → Option Int)
    (i : Nat) (a : Int) :
    (i, a) ∈ actionWrites pa acts
      ↔ ∃ hi : i < pa.length, acts (pa.get ⟨i, hi⟩) = some a := by
  unfold actionWrites
  rw [List.mem_filterMap]
  constructor
  · rintro ⟨⟨j, s⟩, hp, hfp⟩
    obtain ⟨b, hb, hba⟩ := Option.map_eq_some'.mp hfp
    have hji : j = i := congrArg Prod.fst hba
    have hbe : b = a := congrArg Prod.snd hba
    subst hji
    subst hbe
    have hmem := List.mk_mem_enum_iff_getElem?.mp hp
    have hj : j < pa.length := by
      by_contra hlt
      rw [List.getElem?_eq_none (by omega)] at hmem
      cases hmem
    refine ⟨hj, ?_⟩
    have hsome : pa[j]? = some (pa.get ⟨j, hj⟩) := List.getElem?_eq_getElem hj
    rw [hsome] at hmem
    cases hmem
    exact hb
  · rintro ⟨hi, hacts⟩
    refine ⟨(i, pa.get ⟨i, hi⟩), ?_, ?_⟩
    · exact List.mk_mem_enum_iff_getElem?.mpr (List.getElem?_eq_getElem hi)
    · rw [hacts]
      rfl

theorem buildActionList_getElem?_of_none (m : Nat) (pa : List String)
    (acts : String → Option Int) (i : Nat) (hi : i < pa.length) (him : i < m)
    (h : acts (pa.get ⟨i, hi⟩) = none) :
    (buildActionList m pa acts)[i]? = some 0 := by
  rw [buildActionList_eq_writeAll, writeAll_getElem?_of_not_mem, List.getElem?_replicate]
  · simp [him]
  · intro hmem
    obtain ⟨⟨j, a⟩, hja, hji⟩ := List.mem_map.mp hmem
    obtain rfl : j = i := hji
    obtain ⟨hi', hacts⟩ := (mem_actionWrites pa acts j a).mp hja
    rw [show pa.get ⟨j, hi'⟩ = pa.get ⟨j, hi⟩ from rfl, h] at hacts
    cases hacts

theorem buildActionList_getElem?_of_some (m : Nat) (pa : List String)
    (acts : String → Option Int) (i : Nat) (a : Int) (hi : i < pa.length) (him : i < m)
    (h : acts (pa.get ⟨i, hi⟩) = some a) :
    (buildActionList m pa acts)[i]? = some a := by
  rw [buildActionList_eq_writeAll]
  refine writeAll_getElem?_of_mem_nodup _ _ i a ?_ ?_ ?_
  · rw [List.length_replicate]
    exact him
  · exact (mem_actionWrites pa acts i a).mpr ⟨hi, h⟩
  · exact (List.nodup_range _).sublist (actionWrites_map_fst_sublist pa acts)

/-! ### Claim C1 -/

/-- C1: for every `step(actions)` call on a well-formed (e.g. freshly reset)
environment, the observations, rewards and dones dicts returned have the
same key list, and an agent is a key exactly when it is currently live, i.e.
survives the drop of the agents already marked done at the start of the
step — for any supplied action dict. -/
theorem step_dict_key_sets (st : MEnv) (e : Engine) (acts : String → Option Int)
    (hwf : WF st) :
    ((st.step e acts).observations.map Prod.fst
        = (st.step e acts).rewards.map Prod.fst
      ∧ (st.step e acts).rewards.map Prod.fst
        = (st.step e acts).dones.map Prod.fst)
    ∧ ∀ a, a ∈ (st.step e acts).observations.map Prod.fst ↔ a ∈ st.filteredAgents := by
  have hlen : st.stepMid.max_num_agents = st.stepMid.possible_agents.length := hwf.1
  have hobs := observe_all_map_fst st.stepMid e hlen
  have hrew := all_rewards_map_fst st.stepMid e hlen
  have hdon := all_dones_map_fst st.stepMid e (st.doneFlag e) hlen
  have hOproj : (st.step e acts).observations = st.stepMid._observe_all e := rfl
  have hRproj : (st.step e acts).rewards = st.stepMid._all_rewards e := rfl
  have hDproj : (st.step e acts).dones = st.stepMid._all_dones e (st.doneFlag e) := rfl
  rw [hOproj, hRproj, hDproj, hobs, hrew, hdon]
  refine ⟨⟨rfl, rfl⟩, fun a => ?_⟩
  constructor
  · intro ha
    have := (List.mem_filter.mp ha).2
    simpa using this
  · intro ha
    refine List.mem_filter.mpr ⟨?_, by simpa using ha⟩
    exact hwf.2.1 a (filteredAgents_subset st a ha)

/-- Witness for C1 on the concrete environment: state after reset, engine no
longer reporting `red_1`. -/
theorem step_dict_key_sets_witness :
    WF exSt ∧
    (((exSt.step exEngineDead exActs).observations.map Prod.fst
        = (exSt.step exEngineDead exActs).rewards.map Prod.fst
      ∧ (exSt.step exEngineDead exActs).rewards.map Prod.fst
        = (exSt.step exEngineDead exActs).dones.map Prod.fst)
    ∧ ("red_1" ∈ (exSt.step exEngineDead exActs).observations.map Prod.fst
        ↔ "red_1" ∈ exSt.filteredAgents)) :=
  ⟨by decide,
    (step_dict_key_sets exSt exEngineDead exActs (by decide)).1,
    (step_dict_key_sets exSt exEngineDead exActs (by decide)).2 "red_1"⟩

/-! ### Claim C2 -/

/-- C2: the `done` flag a step computes is exactly
`env.step() or (frames + 1 ≥ max_frames)` with the post-increment frame
counter; when it holds, every agent of the returned dones dict is marked
done, and the dict is unchanged under any modification of the engine's
per-agent alive flags. -/
theorem step_termination (st : MEnv) (e : Engine) (acts : String → Option Int) :
    (st.step e acts).done_flag
        = (e.step_signal || decide (st.frames + 1 ≥ st.max_frames))
    ∧ ((st.step e acts).done_flag = true →
        ∀ p ∈ (st.step e acts).dones, p.2 = true)
    ∧ ∀ e' : Engine, e'.agent_id = e.agent_id → e'.reward = e.reward →
        e'.view = e.view → e'.feature = e.feature →
        e'.step_signal = e.step_signal →
        (st.step e acts).done_flag = true →
        (st.step e' acts).dones = (st.step e acts).dones := by
  refine ⟨rfl, ?_, ?_⟩
  · intro hdone p hp
    have hDproj : (st.step e acts).dones = st.stepMid._all_dones e (st.doneFlag e) := rfl
    have hflag : st.doneFlag e = true := hdone
    rw [hDproj, hflag] at hp
    unfold MEnv._all_dones at hp
    rw [if_pos rfl] at hp
    have hz := List.of_mem_zip (List.mem_of_mem_filter hp)
    exact List.eq_of_mem_replicate hz.2
  · intro e' _ _ _ _ h5 hdone
    have hflag : st.doneFlag e = true := hdone
    have hflag' : st.doneFlag e' = st.doneFlag e := by
      unfold MEnv.doneFlag
      rw [h5]
    have hD : (st.step e acts).dones = st.stepMid._all_dones e true := by
      show st.stepMid._all_dones e (st.doneFlag e) = _
      rw [hflag]
    have hD' : (st.step e' acts).dones = st.stepMid._all_dones e' true := by
      show st.stepMid._all_dones e' (st.doneFlag e') = _
      rw [hflag', hflag]
    rw [hD, hD']
    unfold MEnv._all_dones
    rw [if_pos rfl, if_pos rfl]

/-- Witness for C2: an engine snapshot signalling a global episode end; the
dones dict ignores the flipped alive flags. -/
theorem step_termination_witness :
    (exSt.step exEngineEnd exActs).done_flag = true
    ∧ ("red_0", true) ∈ (exSt.step exEngineEnd exActs).dones
    ∧ (exSt.step exEngineEndAliveFlip exActs).dones
        = (exSt.step exEngineEnd exActs).dones :=
  ⟨by decide,
    by decide,
    (step_termination exSt exEngineEnd exActs).2.2 exEngineEndAliveFlip
      rfl rfl rfl rfl rfl (by decide)⟩

/-! ### Claim C3 -/

/-- C3: an agent of `possible_agents` whose id is absent from the supplied
action dict contributes the no-op action 0 to the flat per-group action
array, at its own position. -/
theorem missing_action_defaults_to_zero (st : MEnv) (e : Engine)
    (acts : String → Option Int) (hwf : WF st) (i : Nat)
    (hi : i < st.possible_agents.length)
    (hmiss : acts (st.possible_agents.get ⟨i, hi⟩) = none) :
    (st.step e acts).flat_actions[i]? = some 0 := by
  have hF : (st.step e acts).flat_actions
      = (buildActionList st.max_num_agents st.possible_agents acts).map toInt32 := rfl
  have him : i < st.max_num_agents := hwf.1 ▸ hi
  rw [hF, List.getElem?_map,
    buildActionList_getElem?_of_none st.max_num_agents st.possible_agents acts i hi him
      hmiss]
  norm_num [toInt32]

/-- Witness for C3: `red_0` has no entry in `exActs`; slot 0 of the flat
action array is 0. -/
theorem missing_action_defaults_to_zero_witness :
    WF exSt
    ∧ exActs (exSt.possible_agents.get ⟨0, by decide⟩) = none
    ∧ (exSt.step exEngine exActs).flat_actions[0]? = some 0 :=
  ⟨by decide, by decide,
    missing_action_defaults_to_zero exSt exEngine exActs (by decide) 0 (by decide)
      (by decide)⟩

/-! ### Claim C4 -/

/-- C4: in the dict `_observe_all` builds — which is exactly what both
`reset` and `step` return as observations — an agent that is a key (it is in
the live set) but whose engine id appears in no handle's `get_agent_id`
list gets `np.zeros` of its declared observation-space shape instead of
engine data. -/
theorem dead_agent_zero_obs (st : MEnv) (e : Engine) (hwf : WF st)
    (hnd : st.possible_agents.Nodup) (i : Nat) (hi : i < st.possible_agents.length)
    (hlive : st.possible_agents.get ⟨i, hi⟩ ∈ st.agents)
    (hdead : ∀ h, h < st.team_sizes.length → i ∉ e.agent_id.getD h [])
    (shp : Shape3)
    (hshape : dget st.observation_shapes (st.possible_agents.get ⟨i, hi⟩)
      = some shp) :
    dget (st._observe_all e) (st.possible_agents.get ⟨i, hi⟩)
      = some (zerosObs shp) := by
  have hvalzero : dget st.zero_obs (st.possible_agents.get ⟨i, hi⟩)
      = some (zerosObs shp) := by
    unfold MEnv.zero_obs
    rw [dget_map_pair, hshape]
    rfl
  unfold MEnv._observe_all
  rw [dget_map_pair,
    dget_filter_zip st.possible_agents _ st.agents hnd i hi
      (by rw [foldl_writeAll_length, List.length_replicate, hwf.1]),
    if_pos hlive,
    foldl_writeAll_getElem?_of_not_mem _ _ _ _ ?notmem,
    List.getElem?_replicate, if_pos (hwf.1 ▸ hi)]
  · show some ((dget st.zero_obs (st.possible_agents.get ⟨i, hi⟩)).getD [])
      = some (zerosObs shp)
    rw [hvalzero]
    rfl
  case notmem =>
    intro j hj hmem
    obtain ⟨p, hp, hpi⟩ := List.mem_map.mp hmem
    obtain ⟨q, hq, rfl⟩ := List.mem_map.mp hp
    exact hdead j hj (hpi ▸ (List.of_mem_zip hq).1)

/-- Witness for C4: `red_1` is live in `exSt` but unreported by
`exEngineDead`; its observation is the zero tensor of shape (1, 1, 2). -/
theorem dead_agent_zero_obs_witness :
    WF exSt
    ∧ exSt.possible_agents.get ⟨1, by decide⟩ ∈ exSt.agents
    ∧ (∀ h, h < exSt.team_sizes.length → 1 ∉ exEngineDead.agent_id.getD h [])
    ∧ dget (exSt._observe_all exEngineDead) (exSt.possible_agents.get ⟨1, by decide⟩)
        = some (zerosObs (1, 1, 2)) :=
  ⟨by decide, by decide, by decide,
    dead_agent_zero_obs exSt exEngineDead (by decide) (by decide) 1 (by decide)
      (by decide) (by decide) (1, 1, 2) (by decide)⟩

/-! ### Claim C5 -/

/-- C5: at the start of every step the live-agent list is replaced by
exactly the previously live agents whose recorded done flag was `False`;
`clear_dead` is issued before every `set_action`; and the returned
observation, reward, done and info dicts all carry only agents of the
filtered live set. -/
theorem step_filters_then_restricts (st : MEnv) (e : Engine)
    (acts : String → Option Int) :
    (∀ a, a ∈ (st.step e acts).st.agents
        ↔ a ∈ st.agents ∧ dget st.all_dones a = some false)
    ∧ (st.step e acts).trace[0]? = some EngineCall.clearDead
    ∧ (∀ j h as,
        (st.step e acts).trace[j]? = some (EngineCall.setAction h as) → 0 < j)
    ∧ (∀ p ∈ (st.step e acts).observations, p.1 ∈ (st.step e acts).st.agents)
    ∧ (∀ p ∈ (st.step e acts).rewards, p.1 ∈ (st.step e acts).st.agents)
    ∧ (∀ p ∈ (st.step e acts).dones, p.1 ∈ (st.step e acts).st.agents)
    ∧ (st.step e acts).infos = (st.step e acts).st.agents := by
  have htr0 : (st.step e acts).trace[0]? = some EngineCall.clearDead := by
    show (EngineCall.clearDead :: _)[0]? = some EngineCall.clearDead
    exact List.getElem?_cons_zero
  refine ⟨?_, htr0, ?_, ?_, ?_, ?_, rfl⟩
  · intro a
    show a ∈ st.filteredAgents ↔ _
    unfold MEnv.filteredAgents
    rw [List.mem_filter]
    cases hdg : dget st.all_dones a <;> simp [hdg]
  · intro j h as hj
    match j with
    | 0 =>
      rw [htr0] at hj
      simp at hj
    | j + 1 => exact Nat.succ_pos j
  · intro p hp
    obtain ⟨q, hq, rfl⟩ := List.mem_map.mp hp
    have := (List.mem_filter.mp hq).2
    simpa using this
  · intro p hp
    have := (List.mem_filter.mp hp).2
    simpa using this
  · intro p hp
    have := (List.mem_filter.mp hp).2
    simpa using this

/-- Witness for C5: in `exStDone` only `red_1` is recorded done; it is
dropped from the live set and from the returned dicts. -/
theorem step_filters_then_restricts_witness :
    ("red_1" ∈ (exStDone.step exEngineDead exActs).st.agents
      ↔ "red_1" ∈ exStDone.agents ∧ dget exStDone.all_dones "red_1" = some false)
    ∧ (exStDone.step exEngineDead exActs).trace[0]? = some EngineCall.clearDead
    ∧ (exStDone.step exEngineDead exActs).infos
        = (exStDone.step exEngineDead exActs).st.agents :=
  ⟨(step_filters_then_restricts exStDone exEngineDead exActs).1 "red_1",
    (step_filters_then_restricts exStDone exEngineDead exActs).2.1,
    (step_filters_then_restricts exStDone exEngineDead exActs).2.2.2.2.2.2⟩

/-! ### Claim C6 -/

/-- C6: `reset()` zeroes the frame counter, clears every agent's done flag,
restores the live list to the full `possible_agents`, calls the engine's
`reset`, and returns an observation dict keyed by exactly `possible_agents`
in order. -/
theorem resetEnv_reinitializes (st : MEnv) (e : Engine) (hwf : WF st) :
    (st.resetEnv e).1.frames = 0
    ∧ (∀ a ∈ st.possible_agents, dget (st.resetEnv e).1.all_dones a = some false)
    ∧ (st.resetEnv e).1.agents = st.possible_agents
    ∧ EngineCall.resetCall ∈ (st.resetEnv e).2.2
    ∧ (st.resetEnv e).2.1.map Prod.fst = st.possible_agents := by
  refine ⟨rfl, ?_, rfl, ?_, ?_⟩
  · intro a ha
    exact dget_map_const st.possible_agents false a ha
  · show EngineCall.resetCall ∈ [EngineCall.resetCall, EngineCall.generateMap]
    exact List.mem_cons_self _ _
  · have hkeys := observe_all_map_fst (st.resetEnv e).1 e hwf.1
    rw [show ((st.resetEnv e).2.1) = (st.resetEnv e).1._observe_all e from rfl, hkeys]
    exact List.filter_eq_self.mpr (fun a ha => by simpa using ha)

/-- Witness for C6 on the freshly constructed environment. -/
theorem resetEnv_reinitializes_witness :
    WF exInit
    ∧ (exInit.resetEnv exEngine).1.frames = 0
    ∧ dget (exInit.resetEnv exEngine).1.all_dones "blue_0" = some false
    ∧ (exInit.resetEnv exEngine).1.agents = exInit.possible_agents
    ∧ EngineCall.resetCall ∈ (exInit.resetEnv exEngine).2.2
    ∧ (exInit.resetEnv exEngine).2.1.map Prod.fst = exInit.possible_agents :=
  ⟨by decide,
    (resetEnv_reinitializes exInit exEngine (by decide)).1,
    (resetEnv_reinitializes exInit exEngine (by decide)).2.1 "blue_0" (by decide),
    (resetEnv_reinitializes exInit exEngine (by decide)).2.2.1,
    (resetEnv_reinitializes exInit exEngine (by decide)).2.2.2.1,
    (resetEnv_reinitializes exInit exEngine (by decide)).2.2.2.2⟩

/-! ### Claim C9 -/

theorem all_rewards_dget_unreported (st : MEnv) (e : Engine)
    (hlen : st.max_num_agents = st.possible_agents.length)
    (hnd : st.possible_agents.Nodup) (i : Nat) (hi : i < st.possible_agents.length)
    (hlive : st.possible_agents.get ⟨i, hi⟩ ∈ st.agents)
    (hunrep : ∀ h, h < st.team_sizes.length → i ∉ e.agent_id.getD h []) :
    dget (st._all_rewards e) (st.possible_agents.get ⟨i, hi⟩) = some 0 := by
  unfold MEnv._all_rewards
  rw [dget_filter_zip st.possible_agents _ st.agents hnd i hi
      (by rw [foldl_writeAll_length, List.length_replicate, hlen]),
    if_pos hlive,
    foldl_writeAll_getElem?_of_not_mem _ _ _ _ ?notmem,
    List.getElem?_replicate, if_pos (hlen ▸ hi)]
  case notmem =>
    intro j hj hmem
    obtain ⟨q, hq, rfl⟩ := List.mem_map.mp hmem
    exact hunrep j hj (List.of_mem_zip hq).1

theorem all_dones_dget_unreported (st : MEnv) (e : Engine)
    (hlen : st.max_num_agents = st.possible_agents.length)
    (hnd : st.possible_agents.Nodup) (i : Nat) (hi : i < st.possible_agents.length)
    (hlive : st.possible_agents.get ⟨i, hi⟩ ∈ st.agents)
    (hunrep : ∀ h, h < st.team_sizes.length → i ∉ e.agent_id.getD h []) :
    dget (st._all_dones e false) (st.possible_agents.get ⟨i, hi⟩) = some true := by
  unfold MEnv._all_dones
  rw [if_neg (by simp),
    dget_filter_zip st.possible_agents _ st.agents hnd i hi
      (by rw [foldl_writeAll_length, List.length_replicate, hlen]),
    if_pos hlive,
    foldl_writeAll_getElem?_of_not_mem _ _ _ _ ?notmem,
    List.getElem?_replicate, if_pos (hlen ▸ hi)]
  case notmem =>
    intro j hj hmem
    obtain ⟨q, hq, rfl⟩ := List.mem_map.mp hmem
    exact hunrep j hj (List.of_mem_zip hq).1

/-- C9: on a non-terminal step, a still-live agent whose engine id no handle
reports comes back done (`True`, from the all-ones initialization of the
dones array) with reward `0.0` (from the all-zeros initialization of the
rewards array). -/
theorem unreported_live_agent_defaults (st : MEnv) (e : Engine)
    (acts : String → Option Int) (hwf : WF st)
    (hnd : st.possible_agents.Nodup) (i : Nat)
    (hi : i < st.possible_agents.length)
    (hlive : st.possible_agents.get ⟨i, hi⟩ ∈ st.filteredAgents)
    (hunrep : ∀ h, h < st.team_sizes.length → i ∉ e.agent_id.getD h [])
    (hnoterm : st.doneFlag e = false) :
    dget (st.step e acts).dones (st.possible_agents.get ⟨i, hi⟩) = some true
    ∧ dget (st.step e acts).rewards (st.possible_agents.get ⟨i, hi⟩) = some 0 := by
  constructor
  · have hD : (st.step e acts).dones = st.stepMid._all_dones e false := by
      show st.stepMid._all_dones e (st.doneFlag e) = _
      rw [hnoterm]
    rw [hD]
    exact all_dones_dget_unreported st.stepMid e hwf.1 hnd i hi hlive hunrep
  · have hR : (st.step e acts).rewards = st.stepMid._all_rewards e := rfl
    rw [hR]
    exact all_rewards_dget_unreported st.stepMid e hwf.1 hnd i hi hlive hunrep

/-- Witness for C9: `red_1` is live but unreported by `exEngineDead` on a
non-terminal step; it comes back done with zero reward. -/
theorem unreported_live_agent_defaults_witness :
    WF exSt
    ∧ exSt.possible_agents.get ⟨1, by decide⟩ ∈ exSt.filteredAgents
    ∧ exSt.doneFlag exEngineDead = false
    ∧ dget (exSt.step exEngineDead exActs).dones
        (exSt.possible_agents.get ⟨1, by decide⟩) = some true
    ∧ dget (exSt.step exEngineDead exActs).rewards
        (exSt.possible_agents.get ⟨1, by decide⟩) = some 0 :=
  ⟨by decide, by decide, by decide,
    (unreported_live_agent_defaults exSt exEngineDead exActs (by decide) (by decide) 1
      (by decide) (by decide) (by decide) (by decide)).1,
    (unreported_live_agent_defaults exSt exEngineDead exActs (by decide) (by decide) 1
      (by decide) (by decide) (by decide) (by decide)).2⟩

/-! ### Claim C8 -/

theorem slicesFrom_length (sizes : List Nat) (start : Nat) (flat : List Int) :
    (slicesFrom sizes start flat).length = sizes.length := by
  induction sizes generalizing start with
  | nil => rfl
  | cons s rest ih => simp [slicesFrom, ih]

theorem slicesFrom_getElem? (sizes : List Nat) (start : Nat) (flat : List Int)
    (i : Nat) (hi : i < sizes.length) :
    (slicesFrom sizes start flat)[i]?
      = some ((flat.drop (start + (sizes.take i).sum)).take (sizes.getD i 0)) := by
  induction sizes generalizing start i with
  | nil => simp at hi
  | cons s rest ih =>
    rw [show slicesFrom (s :: rest) start flat
        = ((flat.drop start).take s) :: slicesFrom rest (start + s) flat from rfl]
    cases i with
    | zero => simp
    | succ j =>
      have hj : j < rest.length := by simpa using hi
      rw [List.getElem?_cons_succ, ih (start + s) j hj]
      have harith : start + s + (rest.take j).sum
          = start + ((s :: rest).take (j + 1)).sum := by
        rw [List.take_succ_cons, List.sum_cons]
        omega
      rw [harith]
      rfl

theorem slicesFrom_flatten (sizes : List Nat) (start : Nat) (flat : List Int)
    (h : flat.length = start + sizes.sum) :
    (slicesFrom sizes start flat).flatten = flat.drop start := by
  induction sizes generalizing start with
  | nil =>
    rw [show slicesFrom [] start flat = [] from rfl]
    rw [List.flatten_nil, eq_comm, List.drop_eq_nil_iff]
    simp at h
    omega
  | cons s rest ih =>
    rw [show slicesFrom (s :: rest) start flat
        = ((flat.drop start).take s) :: slicesFrom rest (start + s) flat from rfl]
    rw [List.flatten_cons, ih (start + s) (by rw [List.sum_cons] at h; omega)]
    rw [show flat.drop (start + s) = (flat.drop start).drop s by
      rw [List.drop_drop, Nat.add_comm]]
    exact List.take_append_drop s (flat.drop start)

theorem sum_take_getD_le (sizes : List Nat) (i : Nat) (hi : i < sizes.length) :
    (sizes.take i).sum + sizes.getD i 0 ≤ sizes.sum := by
  induction sizes generalizing i with
  | nil => simp at hi
  | cons s rest ih =>
    cases i with
    | zero => simp
    | succ j =>
      have hj : j < rest.length := by simpa using hi
      rw [List.take_succ_cons, List.sum_cons, List.sum_cons]
      have := ih j hj
      have hgd : (s :: rest).getD (j + 1) 0 = rest.getD j 0 := rfl
      rw [hgd]
      omega

/-- C8: the `set_action` loop passes handle `i` exactly the slice of the
flat action array starting at the sum of the sizes of teams `0 … i-1`, of
length `team_sizes[i]`, and the slices concatenate back to the whole flat
array, so every slot goes to exactly one handle. -/
theorem set_action_partitions (st : MEnv) (e : Engine) (acts : String → Option Int)
    (hwf : WF st) :
    (∀ i, i < st.team_sizes.length →
      (st.step e acts).trace[i + 1]?
        = some (EngineCall.setAction i
            (((st.step e acts).flat_actions.drop ((st.team_sizes.take i).sum)).take
              (st.team_sizes.getD i 0)))
      ∧ (((st.step e acts).flat_actions.drop ((st.team_sizes.take i).sum)).take
          (st.team_sizes.getD i 0)).length = st.team_sizes.getD i 0)
    ∧ (slicesFrom st.team_sizes 0 (st.step e acts).flat_actions).flatten
        = (st.step e acts).flat_actions := by
  have hF : (st.step e acts).flat_actions
      = (buildActionList st.max_num_agents st.possible_agents acts).map toInt32 := rfl
  have hflen : (st.step e acts).flat_actions.length = st.team_sizes.sum := by
    rw [hF, List.length_map, buildActionList_length, ← hwf.2.2]
  constructor
  · intro i hi
    constructor
    · have htr : (st.step e acts).trace
          = EngineCall.clearDead
            :: (((List.range st.team_sizes.length).map
                  (fun i => EngineCall.setAction i
                    ((slicesFrom st.team_sizes 0 (st.step e acts).flat_actions).getD
                      i [])))
              ++ [EngineCall.stepCall]) := rfl
      rw [htr, List.getElem?_cons_succ,
        List.getElem?_append_left (by simpa using hi),
        List.getElem?_map, List.getElem?_range hi]
      show some (EngineCall.setAction i
          ((slicesFrom st.team_sizes 0 (st.step e acts).flat_actions).getD i [])) = _
      rw [List.getD_eq_getElem?_getD, slicesFrom_getElem? _ _ _ i hi]
      simp
    · rw [List.length_take, List.length_drop, hflen]
      have := sum_take_getD_le st.team_sizes i hi
      omega
  · rw [slicesFrom_flatten st.team_sizes 0 _ (by rw [hflen]; omega)]
    exact List.drop_zero _

/-- Witness for C8 on the concrete environment (teams of sizes 2 and 1). -/
theorem set_action_partitions_witness :
    WF exSt
    ∧ (exSt.step exEngine exActs).trace[0 + 1]?
        = some (EngineCall.setAction 0
            (((exSt.step exEngine exActs).flat_actions.drop
                ((exSt.team_sizes.take 0).sum)).take (exSt.team_sizes.getD 0 0)))
    ∧ (slicesFrom exSt.team_sizes 0 (exSt.step exEngine exActs).flat_actions).flatten
        = (exSt.step exEngine exActs).flat_actions :=
  ⟨by decide,
    ((set_action_partitions exSt exEngine exActs (by decide)).1 0 (by decide)).1,
    (set_action_partitions exSt exEngine exActs (by decide)).2⟩

/-! ### Claim C7: support lemmas -/

theorem dget_zip {β : Type} (pa : List String) (vals : List β)
    (hnd : pa.Nodup) (i : Nat) (hi : i < pa.length)
    (hlen : vals.length = pa.length) :
    dget (pa.zip vals) (pa.get ⟨i, hi⟩) = vals[i]? := by
  have hfe : (pa.zip vals).filter (fun p => decide (p.1 ∈ pa)) = pa.zip vals :=
    List.filter_eq_self.mpr (fun p hp => by
      simpa using (List.of_mem_zip hp).1)
  rw [← hfe, dget_filter_zip pa vals pa hnd i hi hlen, if_pos (pa.get_mem i hi)]

theorem flatMap_map_succ {γ : Type} (l : List Nat) (f : Nat → List γ) :
    (l.map Nat.succ).flatMap f = l.flatMap (fun a => f (a + 1)) := by
  rw [List.flatMap_def, List.map_map, List.flatMap_def]
  rfl

/-- Element `offset h + r` of a per-team block list
`[g j i for j in range(len(sizes)) for i in range(sizes[j])]` is `g h r`. -/
theorem blocks_getElem? {α : Type} (sizes : List Nat) (g : Nat → Nat → α)
    (h r : Nat) (hh : h < sizes.length) (hr : r < sizes.getD h 0) :
    ((List.range sizes.length).flatMap
        (fun j => (List.range (sizes.getD j 0)).map (g j)))[(sizes.take h).sum + r]?
      = some (g h r) := by
  induction sizes generalizing g h with
  | nil => simp at hh
  | cons s rest ih =>
    have hsplit : (List.range (s :: rest).length).flatMap
        (fun j => (List.range ((s :: rest).getD j 0)).map (g j))
        = (List.range s).map (g 0)
          ++ (List.range rest.length).flatMap
              (fun j => (List.range (rest.getD j 0)).map (g (j + 1))) := by
      rw [show (s :: rest).length = rest.length + 1 from rfl, List.range_succ_eq_map,
        List.flatMap_cons, flatMap_map_succ]
      rfl
    rw [hsplit]
    cases h with
    | zero =>
      rw [show ((s :: rest).take 0).sum + r = r by simp]
      rw [List.getElem?_append_left (by simpa using hr), List.getElem?_map,
        List.getElem?_range (by simpa using hr)]
      rfl
    | succ j =>
      have hj : j < rest.length := by simpa using hh
      have hidx : ((s :: rest).take (j + 1)).sum + r
          = s + ((rest.take j).sum + r) := by
        rw [List.take_succ_cons, List.sum_cons]
        omega
      rw [hidx, List.getElem?_append_right (by simp)]
      rw [show s + ((rest.take j).sum + r) - ((List.range s).map (g 0)).length
          = (rest.take j).sum + r by simp]
      exact ih (fun j => g (j + 1)) j hj hr

theorem wellShaped_concat_tile (t : Obs3) (f : List ℚ) (H W C : Nat)
    (ht : WellShaped t (H, W, C)) :
    WellShaped (concatLast t (tileFeat H W f)) (H, W, C + f.length) := by
  obtain ⟨hlen, hrows⟩ := ht
  constructor
  · simp [concatLast, tileFeat, hlen]
  · intro row hrow
    obtain ⟨pr, hpr, rfl⟩ := List.mem_map.mp hrow
    have h1 := List.of_mem_zip hpr
    have hr1 := hrows pr.1 h1.1
    have hr2 : pr.2 = List.replicate W f := List.eq_of_mem_replicate h1.2
    constructor
    · simp [hr1.1, hr2]
    · intro cell hcell
      obtain ⟨pc, hpc, rfl⟩ := List.mem_map.mp hcell
      have h2 := List.of_mem_zip hpc
      have hc1 := hr1.2 pc.1 h2.1
      have hc2 : pc.2 = f := by
        rw [hr2] at h2
        exact List.eq_of_mem_replicate h2.2
      simp [hc1, hc2]

theorem finObsHandle_length (views : List Obs3) (feats : List (List ℚ)) :
    (finObsHandle views feats).length = min views.length feats.length := by
  unfold finObsHandle
  simp

theorem getD_mem {α : Type} (l : List α) (i : Nat) (d : α) (h : i < l.length) :
    l.getD i d ∈ l := by
  rw [List.getD_eq_getElem?_getD, List.getElem?_eq_getElem h]
  exact List.getElem_mem h

theorem getD_eq_get {α : Type} (l : List α) (i : Nat) (d : α) (h : i < l.length) :
    l.getD i d = l.get ⟨i, h⟩ := by
  rw [List.getD_eq_getElem?_getD, List.getElem?_eq_getElem h]
  rfl

theorem finObsHandle_getElem? (views : List Obs3) (feats : List (List ℚ))
    (H W C : Nat) (hHpos : 0 < H)
    (hvshape : ∀ t ∈ views, WellShaped t (H, W, C))
    (k : Nat) (hkv : k < views.length) (hkf : k < feats.length) :
    (finObsHandle views feats)[k]?
      = some (concatLast (views.getD k [])
          (tileFeat H W (feats.getD k []))) := by
  have hne : 0 < views.length := Nat.lt_of_le_of_lt (Nat.zero_le k) hkv
  have hs0 := hvshape _ (getD_mem views 0 [] hne)
  have hH : (views.getD 0 []).length = H := hs0.1
  have hW : ((views.getD 0 []).getD 0 []).length = W := by
    have hrow := getD_mem (views.getD 0 []) 0 [] (by rw [hH]; exact hHpos)
    exact (hs0.2 _ hrow).1
  have hkz : k < (views.zip feats).length := by
    rw [List.length_zip]
    omega
  unfold finObsHandle
  rw [List.getElem?_map, List.getElem?_eq_getElem hkz, List.getElem_zip]
  show some (concatLast (views.get ⟨k, hkv⟩)
      (tileFeat (views.getD 0 []).length ((views.getD 0 []).getD 0 []).length
        (feats.get ⟨k, hkf⟩)))
    = some (concatLast (views.getD k []) (tileFeat H W (feats.getD k [])))
  rw [hH, hW, getD_eq_get views k [] hkv, getD_eq_get feats k [] hkf]

/-- An agent reported by handle `h` at position `k` gets, in the
`_observe_all` dict, the concatenation of its view tensor with its tiled
feature vector. -/
theorem observe_all_dget_reported (st : MEnv) (e : Engine)
    (hlen : st.max_num_agents = st.possible_agents.length)
    (hnd : st.possible_agents.Nodup)
    (i : Nat) (hi : i < st.possible_agents.length)
    (hlive : st.possible_agents.get ⟨i, hi⟩ ∈ st.agents)
    (h k : Nat) (hh : h < st.team_sizes.length)
    (H W C : Nat) (hHpos : 0 < H)
    (hik : (e.agent_id.getD h [])[k]? = some i)
    (hvlen : ∀ j, j < st.team_sizes.length →
      (e.view.getD j []).length = (e.agent_id.getD j []).length)
    (hflen : ∀ j, j < st.team_sizes.length →
      (e.feature.getD j []).length = (e.agent_id.getD j []).length)
    (hvshape : ∀ t ∈ e.view.getD h [], WellShaped t (H, W, C))
    (huniq : (((List.range st.team_sizes.length).map
        (fun j => e.agent_id.getD j [])).flatten).Nodup) :
    dget (st._observe_all e) (st.possible_agents.get ⟨i, hi⟩)
      = some (concatLast ((e.view.getD h []).getD k [])
          (tileFeat H W ((e.feature.getD h []).getD k []))) := by
  have hk : k < (e.agent_id.getD h []).length := by
    by_contra hc
    rw [List.getElem?_eq_none (by omega)] at hik
    cases hik
  have hvl := hvlen h hh
  have hfl := hflen h hh
  have hfinlen : (finObsHandle (e.view.getD h []) (e.feature.getD h [])).length
      = (e.agent_id.getD h []).length := by
    rw [finObsHandle_length, hvl, hfl]
    exact Nat.min_self _
  have hkz : k < ((e.agent_id.getD h []).zip
      (finObsHandle (e.view.getD h []) (e.feature.getD h []))).length := by
    rw [List.length_zip, hfinlen]
    omega
  have hfin : (finObsHandle (e.view.getD h []) (e.feature.getD h []))[k]?
      = some (concatLast ((e.view.getD h []).getD k [])
          (tileFeat H W ((e.feature.getD h []).getD k []))) :=
    finObsHandle_getElem? _ _ H W C hHpos hvshape k (by omega) (by omega)
  have hival : (e.agent_id.getD h []).get ⟨k, hk⟩ = i := by
    rw [List.getElem?_eq_getElem hk] at hik
    exact Option.some.inj hik
  have hfinval : (finObsHandle (e.view.getD h []) (e.feature.getD h [])).get
      ⟨k, by omega⟩
      = concatLast ((e.view.getD h []).getD k [])
          (tileFeat H W ((e.feature.getD h []).getD k [])) := by
    rw [List.getElem?_eq_getElem (show k < _ by omega)] at hfin
    exact Option.some.inj hfin
  have hmem : (i, some (concatLast ((e.view.getD h []).getD k [])
        (tileFeat H W ((e.feature.getD h []).getD k []))))
      ∈ (((List.range st.team_sizes.length).map
          (fun j => (handlePairs e j).map (fun p => (p.1, some p.2))))).flatten := by
    apply List.mem_flatten.mpr
    refine ⟨(handlePairs e h).map (fun p => (p.1, some p.2)),
      List.mem_map.mpr ⟨h, List.mem_range.mpr hh, rfl⟩, ?_⟩
    have hkm : k < ((handlePairs e h).map (fun p => (p.1, some p.2))).length := by
      rw [List.length_map]
      exact hkz
    have hval : ((handlePairs e h).map (fun p => (p.1, some p.2))).get ⟨k, hkm⟩
        = (i, some (concatLast ((e.view.getD h []).getD k [])
            (tileFeat H W ((e.feature.getD h []).getD k [])))) := by
      show (((e.agent_id.getD h []).zip
          (finObsHandle (e.view.getD h []) (e.feature.getD h []))).map
            (fun p => (p.1, some p.2))).get ⟨k, hkm⟩ = _
      rw [List.get_eq_getElem, List.getElem_map, List.getElem_zip]
      have hkfin : k < (finObsHandle (e.view.getD h []) (e.feature.getD h [])).length := by
        omega
      have h1 : (e.agent_id.getD h [])[k] = i := hival
      have h2 : (finObsHandle (e.view.getD h []) (e.feature.getD h []))[k]
          = concatLast ((e.view.getD h []).getD k [])
              (tileFeat H W ((e.feature.getD h []).getD k [])) := hfinval
      rw [h1, h2]
    rw [← hval]
    exact List.get_mem _ _ _
  have hkeys : ((((List.range st.team_sizes.length).map
      (fun j => (handlePairs e j).map (fun p => (p.1, some p.2))))).flatten).map
        Prod.fst
      = ((List.range st.team_sizes.length).map
          (fun j => e.agent_id.getD j [])).flatten := by
    rw [List.map_flatten, List.map_map]
    congr 1
    apply List.map_congr_left
    intro j hj
    show ((handlePairs e j).map (fun p => (p.1, some p.2))).map Prod.fst
        = e.agent_id.getD j []
    rw [List.map_map,
      show (Prod.fst ∘ fun p : Nat × Obs3 => (p.1, some p.2)) = Prod.fst from rfl]
    apply List.map_fst_zip
    rw [finObsHandle_length, hvlen j (List.mem_range.mp hj),
      hflen j (List.mem_range.mp hj)]
    omega
  unfold MEnv._observe_all
  rw [dget_map_pair,
    dget_filter_zip st.possible_agents _ st.agents hnd i hi
      (by rw [foldl_writeAll_length, List.length_replicate, hlen]),
    if_pos hlive, foldl_writeAll_eq_flatten,
    writeAll_getElem?_of_mem_nodup _ _ i
      (some (concatLast ((e.view.getD h []).getD k [])
        (tileFeat H W ((e.feature.getD h []).getD k []))))
      (by rw [List.length_replicate, hlen]; exact hi) hmem
      (by rw [hkeys]; exact huniq)]
  rfl

/-- The declared observation-space shape of the agent at flat index
`offset h + r` of the constructed environment is team `h`'s
`(H, W, C + F)`. -/
theorem initEnv_observation_shapes_dget (meta : EngineMeta) (names : List String)
    (mf : Nat) (hnd : (makeAgentNames names meta.num).Nodup)
    (hvs : meta.view_space.length = meta.num.length)
    (hfs : meta.feature_space.length = meta.num.length)
    (h r i : Nat) (hh : h < meta.num.length) (hr : r < meta.num.getD h 0)
    (hblock : i = (meta.num.take h).sum + r)
    (hi : i < (makeAgentNames names meta.num).length)
    (H W C F : Nat)
    (hview : meta.view_space.getD h (0, 0, 0) = (H, W, C))
    (hfeat : meta.feature_space.getD h 0 = F) :
    dget ((initEnv meta names mf).observation_shapes)
      ((makeAgentNames names meta.num).get ⟨i, hi⟩) = some (H, W, C + F) := by
  show dget ((makeAgentNames names meta.num).zip
      (perAgentShapes meta.num (calc_obs_shapes meta.view_space meta.feature_space)))
    ((makeAgentNames names meta.num).get ⟨i, hi⟩) = some (H, W, C + F)
  rw [dget_zip _ _ hnd i hi
    (by rw [length_perAgentShapes, length_makeAgentNames])]
  unfold perAgentShapes
  rw [hblock, blocks_getElem? meta.num _ h r hh hr]
  have hzip : h < (meta.view_space.zip meta.feature_space).length := by
    rw [List.length_zip]
    omega
  have hcalc : (calc_obs_shapes meta.view_space meta.feature_space).getD h (0, 0, 0)
      = (H, W, C + F) := by
    unfold calc_obs_shapes
    rw [getD_eq_get _ h _ (by rw [List.length_map]; exact hzip),
      List.get_eq_getElem, List.getElem_map, List.getElem_zip]
    have hv : meta.view_space.get ⟨h, by omega⟩ = (H, W, C) := by
      rw [← getD_eq_get meta.view_space h (0, 0, 0) (by omega)]
      exact hview
    have hf : meta.feature_space.get ⟨h, by omega⟩ = F := by
      rw [← getD_eq_get meta.feature_space h 0 (by omega)]
      exact hfeat
    show ((meta.view_space.get ⟨h, by omega⟩).1,
        (meta.view_space.get ⟨h, by omega⟩).2.1,
        (meta.view_space.get ⟨h, by omega⟩).2.2
          + meta.feature_space.get ⟨h, by omega⟩) = (H, W, C + F)
    rw [hv, hf]
  rw [hcalc]

/-- C7: for an agent the engine reports (handle `h`, position `k`), the
returned observation is the engine's view tensor concatenated along the
channel axis with the agent's feature vector tiled over the view's two
spatial dimensions; it is a rectangular tensor of shape
(view_height, view_width, view_channels + feature_length), which is exactly
the declared observation-space shape — under the precondition that view
spaces are 3-dimensional tuples and feature spaces 1-dimensional. -/
theorem alive_agent_obs_concat_matches_space
    (meta : EngineMeta) (names : List String) (mf : Nat) (e : Engine)
    (hnd : (makeAgentNames names meta.num).Nodup)
    (hvs : meta.view_space.length = meta.num.length)
    (hfs : meta.feature_space.length = meta.num.length)
    (h k i r : Nat) (hh : h < meta.num.length)
    (H W C F : Nat) (hHpos : 0 < H)
    (hview : meta.view_space.getD h (0, 0, 0) = (H, W, C))
    (hfeat : meta.feature_space.getD h 0 = F)
    (hik : (e.agent_id.getD h [])[k]? = some i)
    (hblock : i = (meta.num.take h).sum + r) (hr : r < meta.num.getD h 0)
    (hvlen : ∀ j, j < meta.num.length →
      (e.view.getD j []).length = (e.agent_id.getD j []).length)
    (hflen : ∀ j, j < meta.num.length →
      (e.feature.getD j []).length = (e.agent_id.getD j []).length)
    (hvshape : ∀ t ∈ e.view.getD h [], WellShaped t (H, W, C))
    (hfshape : ∀ f ∈ e.feature.getD h [], f.length = F)
    (huniq : (((List.range meta.num.length).map
        (fun j => e.agent_id.getD j [])).flatten).Nodup) :
    ∃ hi : i < (makeAgentNames names meta.num).length,
      dget (((initEnv meta names mf).resetEnv e).2.1)
          ((makeAgentNames names meta.num).get ⟨i, hi⟩)
        = some (concatLast ((e.view.getD h []).getD k [])
            (tileFeat H W ((e.feature.getD h []).getD k [])))
      ∧ WellShaped (concatLast ((e.view.getD h []).getD k [])
          (tileFeat H W ((e.feature.getD h []).getD k []))) (H, W, C + F)
      ∧ dget ((initEnv meta names mf).observation_shapes)
          ((makeAgentNames names meta.num).get ⟨i, hi⟩) = some (H, W, C + F) := by
  have hi : i < (makeAgentNames names meta.num).length := by
    rw [length_makeAgentNames]
    have := sum_take_getD_le meta.num h hh
    omega
  refine ⟨hi, ?_, ?_, ?_⟩
  · exact observe_all_dget_reported ((initEnv meta names mf).resetEnv e).1 e
      (WF_resetEnv _ e (WF_initEnv meta names mf)).1
      hnd i hi (List.get_mem _ _ _) h k hh H W C hHpos hik hvlen hflen hvshape huniq
  · have hkid : k < (e.agent_id.getD h []).length := by
      by_contra hc
      rw [List.getElem?_eq_none (by omega)] at hik
      cases hik
    have hkv : k < (e.view.getD h []).length := by
      rw [hvlen h hh]
      omega
    have hkf : k < (e.feature.getD h []).length := by
      rw [hflen h hh]
      omega
    have hsh := hvshape _ (getD_mem (e.view.getD h []) k [] hkv)
    have hfF : ((e.feature.getD h []).getD k []).length = F :=
      hfshape _ (getD_mem (e.feature.getD h []) k [] hkf)
    have hws := wellShaped_concat_tile ((e.view.getD h []).getD k [])
      ((e.feature.getD h []).getD k []) H W C hsh
    rw [hfF] at hws
    exact hws
  · exact initEnv_observation_shapes_dget meta names mf hnd hvs hfs h r i hh hr
      hblock hi H W C F hview hfeat

/-- Witness for C7: agent `red_0` (handle 0, position 0) of the concrete
environment; its reset observation is `[[[5, 9]]]`, the 1 × 1 × 1 view
`[[[5]]]` concatenated with the feature `[9]`, of declared shape
(1, 1, 1 + 1). -/
theorem alive_agent_obs_concat_matches_space_witness :
    (makeAgentNames exNames exMeta.num).Nodup
    ∧ (∃ hi : 0 < (makeAgentNames exNames exMeta.num).length,
        dget (((initEnv exMeta exNames 10).resetEnv exEngine).2.1)
            ((makeAgentNames exNames exMeta.num).get ⟨0, hi⟩)
          = some (concatLast ((exEngine.view.getD 0 []).getD 0 [])
              (tileFeat 1 1 ((exEngine.feature.getD 0 []).getD 0 [])))
        ∧ WellShaped (concatLast ((exEngine.view.getD 0 []).getD 0 [])
            (tileFeat 1 1 ((exEngine.feature.getD 0 []).getD 0 []))) (1, 1, 1 + 1)
        ∧ dget ((initEnv exMeta exNames 10).observation_shapes)
            ((makeAgentNames exNames exMeta.num).get ⟨0, hi⟩)
          = some (1, 1, 1 + 1)) :=
  ⟨by decide,
    alive_agent_obs_concat_matches_space exMeta exNames 10 exEngine (by decide)
      (by decide) (by decide) 0 0 0 0 (by decide) 1 1 1 1 (by decide) (by decide)
      (by decide) (by decide) (by decide) (by decide) (by decide) (by decide)
      (by decide) (by decide) (by decide)⟩

/-! ### Claim C10 -/

theorem toInt32_eq_self (a : Int) (hlo : -(2 ^ 31) ≤ a) (hhi : a < 2 ^ 31) :
    toInt32 a = a := by
  unfold toInt32
  have e31 : (2 : Int) ^ 31 = 2147483648 := by norm_num
  have e32 : (2 : Int) ^ 32 = 4294967296 := by norm_num
  rw [Int.emod_eq_of_lt (by omega) (by omega)]
  omega

/-- C10: an action supplied for an agent already marked done is still
written at the agent's `possible_agents` index of the flat int32 action
array and is part of the slices forwarded through `set_action`, even though
the agent is dropped from the live list; only absence from the dict
produces the no-op 0. -/
theorem done_agent_action_still_forwarded (st : MEnv) (e : Engine)
    (acts : String → Option Int) (hwf : WF st) (i : Nat)
    (hi : i < st.possible_agents.length) (a : Int)
    (hsup : acts (st.possible_agents.get ⟨i, hi⟩) = some a)
    (hlo : -(2 ^ 31) ≤ a) (hhi : a < 2 ^ 31)
    (hdone : dget st.all_dones (st.possible_agents.get ⟨i, hi⟩) = some true) :
    (st.step e acts).flat_actions[i]? = some a
    ∧ st.possible_agents.get ⟨i, hi⟩ ∉ (st.step e acts).st.agents
    ∧ ((slicesFrom st.team_sizes 0 (st.step e acts).flat_actions).flatten)[i]?
        = some a := by
  have hF : (st.step e acts).flat_actions
      = (buildActionList st.max_num_agents st.possible_agents acts).map toInt32 := rfl
  have hflat : (st.step e acts).flat_actions[i]? = some a := by
    rw [hF, List.getElem?_map,
      buildActionList_getElem?_of_some st.max_num_agents st.possible_agents acts i a hi
        (hwf.1 ▸ hi) hsup]
    rw [show Option.map toInt32 (some a) = some (toInt32 a) from rfl,
      toInt32_eq_self a hlo hhi]
  refine ⟨hflat, ?_, ?_⟩
  · intro hmem
    have hpred := (List.mem_filter.mp hmem).2
    rw [hdone] at hpred
    simp at hpred
  · rw [slicesFrom_flatten st.team_sizes 0 _ ?hlen]
    · rw [List.drop_zero]
      exact hflat
    case hlen =>
      rw [hF, List.length_map, buildActionList_length, ← hwf.2.2]
      omega

/-- Witness for C10: `red_1` is recorded done in `exStDone` yet `exActs`
supplies action 3 for it; slot 1 of the flat array carries 3 and `red_1` is
not live. -/
theorem done_agent_action_still_forwarded_witness :
    WF exStDone
    ∧ exActs (exStDone.possible_agents.get ⟨1, by decide⟩) = some 3
    ∧ dget exStDone.all_dones (exStDone.possible_agents.get ⟨1, by decide⟩)
        = some true
    ∧ (exStDone.step exEngineDead exActs).flat_actions[1]? = some 3
    ∧ exStDone.possible_agents.get ⟨1, by decide⟩
        ∉ (exStDone.step exEngineDead exActs).st.agents
    ∧ ((slicesFrom exStDone.team_sizes 0
          (exStDone.step exEngineDead exActs).flat_actions).flatten)[1]? = some 3 :=
  ⟨by decide, by decide, by decide,
    (done_agent_action_still_forwarded exStDone exEngineDead exActs (by decide) 1
      (by decide) 3 (by decide) (by norm_num) (by norm_num) (by decide)).1,
    (done_agent_action_still_forwarded exStDone exEngineDead exActs (by decide) 1
      (by decide) 3 (by decide) (by norm_num) (by norm_num) (by decide)).2.1,
    (done_agent_action_still_forwarded exStDone exEngineDead exActs (by decide) 1
      (by decide) 3 (by decide) (by norm_num) (by norm_num) (by decide)).2.2⟩

end Magent
